import Mathlib

/-!
Verification of the upload artifact and metadata lifecycle layer of the
Store repository (src/server.js): naming resolver, listing filter,
deletion coordinator and upload gateway, shallowly embedded over an
explicit filesystem state.  JavaScript strings are modelled as Lean
`String`, machine-level byte values as `Nat`, and fallible calls as
`Except`/`Option` values.
-/

set_option maxRecDepth 4000

deriving instance DecidableEq for Except

/-- Space character, written via its code point. -/
def spaceChar : Char := Char.ofNat 32

/-- Embedding of JavaScript `String.prototype.split` with a one-character
separator: `"a,,b".split(',') = ["a","","b"]`, `"".split(',') = [""]`. -/
def jsSplit (sep : Char) (s : String) : List String :=
  (s.data.splitOn sep).map (fun l => String.mk l)

/-- Embedding of JavaScript `String.prototype.endsWith`. -/
def endsWithS (s sfx : String) : Bool :=
  List.isSuffixOf sfx.data s.data

/-- Embedding of JavaScript `String.prototype.startsWith`. -/
def startsWithS (s pre : String) : Bool :=
  List.isPrefixOf pre.data s.data

/-- Embedding of JavaScript `s.slice(0, -n)`: the string without its last
`n` characters. -/
def strDropLastN (s : String) (n : Nat) : String :=
  String.mk (s.data.take (s.data.length - n))

/-- The string without its first `n` characters. -/
def strDropN (s : String) (n : Nat) : String :=
  String.mk (s.data.drop n)

/-- Character length of a string. -/
def lenS (s : String) : Nat := s.data.length

/-- Association-list lookup with string keys; first binding wins. -/
def lookupA {α : Type} : List (String × α) → String → Option α
  | [], _ => none
  | e :: r, p => if e.1 = p then some e.2 else lookupA r p

/-- Remove every binding of a key from an association list. -/
def removeA {α : Type} : List (String × α) → String → List (String × α)
  | [], _ => []
  | e :: r, p => if e.1 = p then removeA r p else e :: removeA r p

/-- Value of one character of Node's lenient base64 alphabet (standard and
URL-safe alphabets are both accepted); `none` for characters outside it,
which Node's decoder skips. -/
def b64Val (c : Char) : Option Nat :=
  let n := c.toNat
  if 65 ≤ n ∧ n ≤ 90 then some (n - 65)
  else if 97 ≤ n ∧ n ≤ 122 then some (n - 71)
  else if 48 ≤ n ∧ n ≤ 57 then some (n + 4)
  else if n = 43 ∨ n = 45 then some 62
  else if n = 47 ∨ n = 95 then some 63
  else none

/-- Decode a stream of 6-bit base64 values into bytes, four values to three
bytes, with a lenient partial final group as in Node. -/
def b64Groups : List Nat → List Nat
  | a :: b :: c :: d :: rest =>
    (a * 4 + b / 16) :: ((b % 16) * 16 + c / 4) :: ((c % 4) * 64 + d) :: b64Groups rest
  | [a, b] => [a * 4 + b / 16]
  | [a, b, c] => [a * 4 + b / 16, (b % 16) * 16 + c / 4]
  | _ => []

/-- Embedding of Node's lenient base64 decoding, `Buffer.from(s, "base64")`:
characters outside the alphabet (including padding) are dropped, the rest
is decoded; this never throws. -/
def b64DecodeLenient (s : String) : List Nat :=
  b64Groups (s.data.filterMap b64Val)

/-- Unicode replacement character U+FFFD. -/
def replChar : Char := Char.ofNat 0xFFFD

/-- Is a byte a UTF-8 continuation byte? -/
def isCont (b : Nat) : Bool := decide (0x80 ≤ b ∧ b < 0xC0)

/-- Fuel-indexed lenient UTF-8 decoder (Node's `buf.toString("utf-8")`):
invalid sequences become replacement characters instead of errors. -/
def utf8LenientAux : Nat → List Nat → List Char
  | 0, _ => []
  | _ + 1, [] => []
  | fuel + 1, b :: rest =>
    if b < 0x80 then Char.ofNat b :: utf8LenientAux fuel rest
    else if b < 0xC2 then replChar :: utf8LenientAux fuel rest
    else if b < 0xE0 then
      match rest with
      | b1 :: rest1 =>
        if isCont b1 then
          Char.ofNat ((b - 0xC0) * 64 + (b1 - 0x80)) :: utf8LenientAux fuel rest1
        else replChar :: utf8LenientAux fuel rest
      | [] => [replChar]
    else if b < 0xF0 then
      match rest with
      | b1 :: b2 :: rest2 =>
        if isCont b1 && isCont b2 then
          let cp := (b - 0xE0) * 4096 + (b1 - 0x80) * 64 + (b2 - 0x80)
          if cp < 0x800 ∨ (0xD800 ≤ cp ∧ cp ≤ 0xDFFF) then
            replChar :: utf8LenientAux fuel rest
          else Char.ofNat cp :: utf8LenientAux fuel rest2
        else replChar :: utf8LenientAux fuel rest
      | _ => [replChar]
    else if b < 0xF5 then
      match rest with
      | b1 :: b2 :: b3 :: rest3 =>
        if isCont b1 && isCont b2 && isCont b3 then
          let cp := (b - 0xF0) * 262144 + (b1 - 0x80) * 4096 + (b2 - 0x80) * 64 + (b3 - 0x80)
          if cp < 0x10000 ∨ 0x10FFFF < cp then replChar :: utf8LenientAux fuel rest
          else Char.ofNat cp :: utf8LenientAux fuel rest3
        else replChar :: utf8LenientAux fuel rest
      | _ => [replChar]
    else replChar :: utf8LenientAux fuel rest

/-- Lenient UTF-8 decoding of a byte list into a string. -/
def utf8Lenient (bs : List Nat) : String :=
  String.mk (utf8LenientAux bs.length bs)

/-- Fuel-indexed strict UTF-8 decoder; `none` on any invalid sequence,
as required by `decodeURIComponent`. -/
def utf8StrictAux : Nat → List Nat → Option (List Char)
  | 0, [] => some []
  | 0, _ :: _ => none
  | _ + 1, [] => some []
  | fuel + 1, b :: rest =>
    if b < 0x80 then (utf8StrictAux fuel rest).map (Char.ofNat b :: ·)
    else if b < 0xC2 then none
    else if b < 0xE0 then
      match rest with
      | b1 :: rest1 =>
        if isCont b1 then
          (utf8StrictAux fuel rest1).map (Char.ofNat ((b - 0xC0) * 64 + (b1 - 0x80)) :: ·)
        else none
      | [] => none
    else if b < 0xF0 then
      match rest with
      | b1 :: b2 :: rest2 =>
        if isCont b1 && isCont b2 then
          let cp := (b - 0xE0) * 4096 + (b1 - 0x80) * 64 + (b2 - 0x80)
          if cp < 0x800 ∨ (0xD800 ≤ cp ∧ cp ≤ 0xDFFF) then none
          else (utf8StrictAux fuel rest2).map (Char.ofNat cp :: ·)
        else none
      | _ => none
    else if b < 0xF5 then
      match rest with
      | b1 :: b2 :: b3 :: rest3 =>
        if isCont b1 && isCont b2 && isCont b3 then
          let cp := (b - 0xF0) * 262144 + (b1 - 0x80) * 4096 + (b2 - 0x80) * 64 + (b3 - 0x80)
          if cp < 0x10000 ∨ 0x10FFFF < cp then none
          else (utf8StrictAux fuel rest3).map (Char.ofNat cp :: ·)
        else none
      | _ => none
    else none

/-- Strict UTF-8 decoding of a byte list. -/
def utf8Strict (bs : List Nat) : Option (List Char) :=
  utf8StrictAux bs.length bs

/-- Value of a hexadecimal digit character, `none` otherwise. -/
def hexVal (c : Char) : Option Nat :=
  let n := c.toNat
  if 48 ≤ n ∧ n ≤ 57 then some (n - 48)
  else if 65 ≤ n ∧ n ≤ 70 then some (n - 55)
  else if 97 ≤ n ∧ n ≤ 102 then some (n - 87)
  else none

/-- Token of a percent-encoded string: a literal character or one decoded
escape byte. -/
inductive UriTok
  | raw (c : Char)
  | byte (b : Nat)
deriving DecidableEq, Repr

/-- Scan a character list into `UriTok`s; `none` on a malformed `%` escape
(which makes `decodeURIComponent` throw `URIError`). -/
def uriTokens : List Char → Option (List UriTok)
  | [] => some []
  | '%' :: c1 :: c2 :: rest =>
    match hexVal c1, hexVal c2 with
    | some h, some l => (uriTokens rest).map (UriTok.byte (16 * h + l) :: ·)
    | _, _ => none
  | '%' :: _ => none
  | c :: rest => (uriTokens rest).map (UriTok.raw c :: ·)

/-- Split off the maximal leading run of escape bytes. -/
def takeBytes : List UriTok → List Nat × List UriTok
  | UriTok.byte b :: rest =>
    let p := takeBytes rest
    (b :: p.1, p.2)
  | ts => ([], ts)

/-- Fuel-indexed assembly of tokens into characters: raw characters pass
through, maximal escape-byte runs are decoded as strict UTF-8. -/
def uriAssemble : Nat → List UriTok → Option (List Char)
  | 0, _ => none
  | _ + 1, [] => some []
  | fuel + 1, UriTok.raw c :: rest => (uriAssemble fuel rest).map (c :: ·)
  | fuel + 1, UriTok.byte b :: rest =>
    let p := takeBytes (UriTok.byte b :: rest)
    match utf8Strict p.1 with
    | some cs => (uriAssemble fuel p.2).map (cs ++ ·)
    | none => none

/-- Embedding of JavaScript `decodeURIComponent`: `none` models the thrown
`URIError` on a malformed escape or invalid UTF-8. -/
def percentDecode (s : String) : Option String :=
  match uriTokens s.data with
  | none => none
  | some ts =>
    match uriAssemble (ts.length + 1) ts with
    | some cs => some (String.mk cs)
    | none => none

/-- UTF-8 encoding of one character. -/
def utf8EncodeChar (c : Char) : List Nat :=
  let n := c.toNat
  if n < 0x80 then [n]
  else if n < 0x800 then [0xC0 + n / 64, 0x80 + n % 64]
  else if n < 0x10000 then [0xE0 + n / 4096, 0x80 + (n / 64) % 64, 0x80 + n % 64]
  else [0xF0 + n / 262144, 0x80 + (n / 4096) % 64, 0x80 + (n / 64) % 64, 0x80 + n % 64]

/-- Uppercase hexadecimal digit of a value below 16. -/
def hexDigitU (n : Nat) : Char :=
  Char.ofNat (if n < 10 then 48 + n else 55 + n)

/-- Is a character left unescaped by `encodeURIComponent`
(alphanumerics and `- _ . ! ~ * ( )` and the apostrophe)? -/
def uriUnreserved (c : Char) : Bool :=
  let n := c.toNat
  decide ((48 ≤ n ∧ n ≤ 57) ∨ (65 ≤ n ∧ n ≤ 90) ∨ (97 ≤ n ∧ n ≤ 122) ∨
    n = 45 ∨ n = 95 ∨ n = 46 ∨ n = 33 ∨ n = 126 ∨ n = 42 ∨ n = 39 ∨ n = 40 ∨ n = 41)

/-- Embedding of JavaScript `encodeURIComponent`. -/
def encodeURIComponent (s : String) : String :=
  String.mk (s.data.foldr (fun c acc =>
    if uriUnreserved c then c :: acc
    else (utf8EncodeChar c).foldr
      (fun b acc2 => '%' :: hexDigitU (b / 16) :: hexDigitU (b % 16) :: acc2) acc) [])

/-- One step of POSIX path normalization over a reversed stack of kept
segments, as performed by Node's `path.join`. -/
def normStep (absolute : Bool) (stack : List String) (seg : String) : List String :=
  if seg = "" ∨ seg = "." then stack
  else if seg = ".." then
    match stack with
    | [] => if absolute then [] else [".."]
    | top :: rest => if top = ".." then ".." :: top :: rest else rest
  else seg :: stack

/-- Join segments with slashes. -/
def joinSepSlash : List String → String
  | [] => ""
  | [s] => s
  | s :: rest => s ++ "/" ++ joinSepSlash rest

/-- Embedding of Node's `path.join(a, b)` for POSIX paths: concatenate with
a slash and normalize, resolving `.` and `..` lexically.  `..` segments can
escape the first component, which is what makes path traversal possible. -/
def pathJoin (a b : String) : String :=
  let joined := if a = "" then b else if b = "" then a else a ++ "/" ++ b
  let absolute := startsWithS joined "/"
  let segs := ((jsSplit '/' joined).foldl (normStep absolute) []).reverse
  let body := joinSepSlash segs
  if absolute then "/" ++ body else if body = "" then "." else body

/-- Metadata of one directory entry: whether it is a regular file, plus the
size and modification time reported by `fs.statSync`. -/
structure Stats where
  isFile : Bool
  size : Nat
  mtime : Nat
deriving DecidableEq, Repr

/-- Filesystem state: a finite association of absolute paths to entry
metadata.  This is the single source of truth the server re-reads on every
request. -/
abbrev FS := List (String × Stats)

/-- Errors raised by the modelled `fs` calls. -/
inductive FsErr
  | enoent (p : String)
  | eisdir (p : String)
deriving DecidableEq, Repr

/-- The `message` property of the corresponding Node error. -/
def FsErr.message : FsErr → String
  | .enoent p => "ENOENT: no such file or directory, stat " ++ p
  | .eisdir p => "EISDIR: illegal operation on a directory, unlink " ++ p

/-- Embedding of `fs.existsSync`. -/
def existsSync (fs : FS) (p : String) : Bool :=
  (lookupA fs p).isSome

/-- Embedding of `fs.statSync`: throws `ENOENT` when the path is absent. -/
def statSync (fs : FS) (p : String) : Except FsErr Stats :=
  match lookupA fs p with
  | some st => .ok st
  | none => .error (.enoent p)

/-- Embedding of `fs.unlinkSync`: removes a regular file, throws `ENOENT`
on a missing path and `EISDIR` on a directory, leaving the state
unchanged on error. -/
def unlinkSync (fs : FS) (p : String) : Except FsErr FS :=
  match lookupA fs p with
  | none => .error (.enoent p)
  | some st => if st.isFile then .ok (removeA fs p) else .error (.eisdir p)

/-- Embedding of `fs.readdirSync dir`: the names (without slashes) of the
entries lying directly under `dir`. -/
def readdirSync (fs : FS) (dir : String) : List String :=
  fs.filterMap (fun e =>
    let r := strDropN e.1 (lenS dir + 1)
    if e.1 = dir ++ "/" ++ r ∧ r ≠ "" ∧ r.data.contains '/' = false then some r else none)

/-- Model stand-in for the server's upload directory
`path.join(__dirname, "uploads")`; the concrete deployment prefix is
irrelevant to the verified behavior. -/
def uploadsDir : String := "/srv/store/uploads"

/-- Embedding of `Buffer.from(value, "base64")` applied to the second
component of a split metadata pair: passing `undefined` (a pair with no
value part) throws a `TypeError`, modelled as `.error ()`; any actual
string decodes leniently and never throws. -/
def bufferFromBase64 : Option String → Except Unit (List Nat)
  | none => .error ()
  | some s => .ok (b64DecodeLenient s)

/-- One iteration of the naming function's `forEach`: split the pair on
spaces, take the first two components as key and encoded value, and decode
the value; the decoded value is read back as UTF-8 text. -/
def decodePair (item : String) : Except Unit (String × String) :=
  let parts := jsSplit spaceChar item
  match bufferFromBase64 parts[1]? with
  | .error e => .error e
  | .ok bytes => .ok (parts.headD "", utf8Lenient bytes)

/-- The `metadataObj` accumulation of the naming function: later pairs are
consed in front, so lookup of the front-most binding realizes the
last-occurrence-wins semantics of repeated JavaScript object assignment.
A pair that throws while decoding aborts the whole resolver. -/
def buildMap : List String → List (String × String) → Except Unit (List (String × String))
  | [], acc => .ok acc
  | item :: rest, acc =>
    match decodePair item with
    | .error e => .error e
    | .ok kv => buildMap rest (kv :: acc)

/-- Embedding of the `namingFunction` passed to the tus server
(src/server.js lines 29-41): parse the `Upload-Metadata` header into a
key-value map, return `metadataObj.filename || file-<Date.now()>`.  The
header being absent or empty (JavaScript falsy) selects the fallback
directly; `.error ()` models an uncaught `TypeError` from `Buffer.from`. -/
def namingFunction (uploadMetadata : Option String) (now : Nat) : Except Unit String :=
  match uploadMetadata with
  | none => .ok ("file-" ++ Nat.repr now)
  | some md =>
    if md = "" then .ok ("file-" ++ Nat.repr now)
    else
      match buildMap (jsSplit ',' md) [] with
      | .error e => .error e
      | .ok m =>
        match lookupA m "filename" with
        | some v => .ok (if v = "" then "file-" ++ Nat.repr now else v)
        | none => .ok ("file-" ++ Nat.repr now)

/-- Value of the last metadata pair whose key decodes to `filename`,
skipping pairs that fail to decode.  This is the selection rule stated by
the specification, defined independently of the fold in `namingFunction`
so the two can be compared. -/
def lastFilename : List String → Option String
  | [] => none
  | item :: rest =>
    match lastFilename rest with
    | some v => some v
    | none =>
      match decodePair item with
      | .ok kv => if kv.1 = "filename" then some kv.2 else none
      | .error _ => none

/-- Outcome of `tusServer.handle(req, res)` as observable by the gateway:
it either returned or threw, and in both cases the response headers may or
may not have been sent already. -/
inductive EngineOutcome
  | completed (headersSent : Bool)
  | failed (headersSent : Bool) (message : String)
deriving DecidableEq, Repr

/-- Response produced by the `/files` gateway around the engine. -/
inductive GatewayResponse
  | passedThrough
  | notFound
  | internalError (details : String)
  | noResponse
deriving DecidableEq, Repr

/-- HTTP status emitted by the gateway itself; `none` when the engine's own
response (or none at all) stands. -/
def GatewayResponse.statusCode : GatewayResponse → Option Nat
  | .passedThrough => none
  | .notFound => some 404
  | .internalError _ => some 500
  | .noResponse => none

/-- The `error` field of the gateway's own JSON body. -/
def GatewayResponse.bodyError : GatewayResponse → Option String
  | .passedThrough => none
  | .notFound => some "Not found"
  | .internalError _ => some "Internal server error"
  | .noResponse => none

/-- Embedding of the `/files` gateway handler (src/server.js lines 45-63):
404 when the engine completed without sending headers, 500 with the
failure's message when it threw before headers were sent, and nothing of
its own otherwise. -/
def tusGateway : EngineOutcome → GatewayResponse
  | .completed true => .passedThrough
  | .completed false => .notFound
  | .failed false msg => .internalError msg
  | .failed true _ => .noResponse

/-- Does the path hold a regular file right now (exists and `isFile`)?
This is the check `fs.existsSync(p) && fs.statSync(p).isFile()`. -/
def baseIsFile (fs : FS) (p : String) : Bool :=
  match lookupA fs p with
  | some st => st.isFile
  | none => false

/-- Propagating form of `fs.statSync(p).isFile()`. -/
def statIsFileE (fs : FS) (p : String) : Except FsErr Bool :=
  match statSync fs p with
  | .error e => .error e
  | .ok st => .ok st.isFile

/-- Embedding of the filter callback of the listing route (src/server.js
lines 69-93): hide `.info` entries unconditionally; hide a `.json` entry
when the same name without the suffix exists as a regular file; otherwise
keep the entry exactly when it is itself a regular file.  A thrown stat
error propagates. -/
def listFilter (fs : FS) (file : String) : Except FsErr Bool :=
  let filePath := pathJoin uploadsDir file
  if endsWithS file ".info" then .ok false
  else if endsWithS file ".json" then
    let baseFileName := strDropLastN file 5
    let baseFilePath := pathJoin uploadsDir baseFileName
    if existsSync fs baseFilePath then
      match statSync fs baseFilePath with
      | .error e => .error e
      | .ok st => if st.isFile then .ok false else statIsFileE fs filePath
    else statIsFileE fs filePath
  else statIsFileE fs filePath

/-- The `.filter` pass over the enumerated names, with the first thrown
error aborting the whole listing as in the surrounding try/catch. -/
def filterFilesM (fs : FS) : List String → Except FsErr (List String)
  | [] => .ok []
  | f :: rest =>
    match listFilter fs f with
    | .error e => .error e
    | .ok true =>
      match filterFilesM fs rest with
      | .error e => .error e
      | .ok l => .ok (f :: l)
    | .ok false => filterFilesM fs rest

/-- One listing entry as serialized by the route. -/
structure FileInfo where
  name : String
  size : Nat
  uploadedAt : Nat
  url : String
deriving DecidableEq, Repr

/-- The `.map` callback of the listing route: stat the entry and build its
descriptor, with the download url as the encoded name. -/
def mapFileEntry (fs : FS) (file : String) : Except FsErr FileInfo :=
  match statSync fs (pathJoin uploadsDir file) with
  | .error e => .error e
  | .ok st => .ok ⟨file, st.size, st.mtime, "/api/files/" ++ encodeURIComponent file⟩

/-- The `.map` pass over the kept names. -/
def mapFilesM (fs : FS) : List String → Except FsErr (List FileInfo)
  | [] => .ok []
  | f :: rest =>
    match mapFileEntry fs f with
    | .error e => .error e
    | .ok fi =>
      match mapFilesM fs rest with
      | .error e => .error e
      | .ok l => .ok (fi :: l)

/-- Filter then map over an already-enumerated name list; any thrown
filesystem error aborts with that error. -/
def scanFiles (fs : FS) (names : List String) : Except FsErr (List FileInfo) :=
  match filterFilesM fs names with
  | .error e => .error e
  | .ok kept => mapFilesM fs kept

/-- Response of GET /api/files. -/
inductive ListResponse
  | ok (files : List FileInfo)
  | serverError (msg : String)
deriving DecidableEq, Repr

/-- Listing outcome given the name snapshot returned by `readdirSync` and
the state seen by the later `statSync` calls; the two arguments are
distinct states exactly when a concurrent mutation races the scan. -/
def listFilesFrom (fs : FS) (names : List String) : ListResponse :=
  match scanFiles fs names with
  | .ok l => .ok l
  | .error e => .serverError e.message

/-- Embedding of the GET /api/files handler (src/server.js lines 66-109)
in the race-free case: enumerate and scan one coherent state. -/
def getFilesHandler (fs : FS) : ListResponse :=
  listFilesFrom fs (readdirSync fs uploadsDir)

/-- Response of GET /api/files/:filename. -/
inductive DownloadResponse
  | stream (path : String) (filename : String)
  | notFound
  | serverError (msg : String)
deriving DecidableEq, Repr

/-- Embedding of the GET /api/files/:filename handler (src/server.js lines
112-132): percent-decode the route parameter, join it onto the upload
directory with no containment check, 404 when absent, otherwise stream the
bytes at the resolved path as an attachment. -/
def downloadHandler (fs : FS) (param : String) : DownloadResponse :=
  match percentDecode param with
  | none => .serverError "URI malformed"
  | some filename =>
    let filePath := pathJoin uploadsDir filename
    if existsSync fs filePath then .stream filePath filename
    else .notFound

/-- Response of DELETE /api/files/:filename. -/
inductive DeleteResponse
  | ok
  | notFound
  | serverError (msg : String)
deriving DecidableEq, Repr

/-- HTTP status of a delete response: 200 with
`message: File deleted successfully`, 404 with `error: File not found`,
or 500 with the thrown error's message. -/
def DeleteResponse.statusCode : DeleteResponse → Nat
  | .ok => 200
  | .notFound => 404
  | .serverError _ => 500

/-- One auxiliary-cleanup step of the delete route (src/server.js lines
150-152 and 157-159): unlink the companion path only when it currently
exists, otherwise leave the state alone. -/
def deleteAux (fs : FS) (q : String) : Except FsErr FS :=
  if existsSync fs q then unlinkSync fs q else .ok fs

/-- Does the path, when occupied at all, hold a regular file?  True also
for an absent path, whose cleanup step is a no-op. -/
def auxFileOk (fs : FS) (q : String) : Bool :=
  match lookupA fs q with
  | some st => st.isFile
  | none => true

/-- Embedding of the DELETE /api/files/:filename handler (src/server.js
lines 135-165): decode and join the name, 404 when the joined path does
not exist, otherwise unlink the primary, then the `.info` and `.json`
companions when present; any thrown error is caught and answered with 500,
leaving whatever state the partial mutation reached. -/
def deleteHandler (fs : FS) (param : String) : DeleteResponse × FS :=
  match percentDecode param with
  | none => (.serverError "URI malformed", fs)
  | some filename =>
    let filePath := pathJoin uploadsDir filename
    if existsSync fs filePath then
      match unlinkSync fs filePath with
      | .error e => (.serverError e.message, fs)
      | .ok fs1 =>
        match deleteAux fs1 (filePath ++ ".info") with
        | .error e => (.serverError e.message, fs1)
        | .ok fs2 =>
          match deleteAux fs2 (filePath ++ ".json") with
          | .error e => (.serverError e.message, fs2)
          | .ok fs3 => (.ok, fs3)
    else (.notFound, fs)

/-- Directory state with a single sub-directory inside the upload
directory and nothing else. -/
def fsDirOnly : FS := [("/srv/store/uploads/adir", ⟨false, 0, 0⟩)]

/-- Directory state with a primary regular file whose `.info` companion
path is occupied by a directory, so its unlink fails unexpectedly. -/
def fsLockedAux : FS :=
  [("/srv/store/uploads/f.bin", ⟨true, 4, 0⟩),
   ("/srv/store/uploads/f.bin.info", ⟨false, 0, 0⟩)]

/-- Directory state with a primary regular file whose `.json` companion
path is occupied by a directory, so its unlink fails unexpectedly. -/
def fsLockedJson : FS :=
  [("/srv/store/uploads/g.bin", ⟨true, 4, 0⟩),
   ("/srv/store/uploads/g.bin.json", ⟨false, 0, 0⟩)]

/-- Directory state with one entry `d.json` that is itself a
sub-directory and has no primary counterpart `d`. -/
def fsOrphanJson : FS := [("/srv/store/uploads/d.json", ⟨false, 0, 0⟩)]

/-- Directory state with a regular file literally named `report.json` and
no primary counterpart. -/
def fsReportJson : FS := [("/srv/store/uploads/report.json", ⟨true, 3, 2⟩)]

/-- Directory state of a finished upload `video.mp4` with both auxiliary
artifacts present as regular files. -/
def fsVideo : FS :=
  [("/srv/store/uploads/video.mp4", ⟨true, 100, 1⟩),
   ("/srv/store/uploads/video.mp4.info", ⟨true, 10, 1⟩),
   ("/srv/store/uploads/video.mp4.json", ⟨true, 20, 1⟩)]

/-- Filesystem holding a regular file that is a sibling of the upload
directory, hence outside it. -/
def outsideFile : FS := [("/srv/store/secret", ⟨true, 5, 0⟩)]

/-- Looking a key up after removing a (possibly different) key. -/
theorem lookupA_removeA {α : Type} (fs : List (String × α)) (p q : String) :
    lookupA (removeA fs p) q = if q = p then none else lookupA fs q := by
  induction fs with
  | nil => simp [removeA, lookupA]
  | cons e r ih =>
    by_cases h1 : e.1 = p
    · rw [removeA, if_pos h1, ih]
      by_cases h2 : q = p
      · simp [h2]
      · have he : ¬ e.1 = q := by rw [h1]; exact fun hh => h2 hh.symm
        simp [h2, lookupA, he]
    · rw [removeA, if_neg h1, lookupA]
      by_cases h3 : e.1 = q
      · have h2 : ¬ q = p := by rw [← h3]; exact h1
        simp [h3, h2, lookupA]
      · simp [h3, ih, lookupA]

/-- Removing an absent key changes nothing. -/
theorem removeA_absent {α : Type} (fs : List (String × α)) (p : String)
    (h : lookupA fs p = none) : removeA fs p = fs := by
  induction fs with
  | nil => rfl
  | cons e r ih =>
    rw [lookupA] at h
    by_cases h1 : e.1 = p
    · rw [if_pos h1] at h; cases h
    · rw [if_neg h1] at h
      rw [removeA, if_neg h1, ih h]

/-- A lookup misses exactly when no entry carries the key. -/
theorem lookupA_eq_none_iff {α : Type} (fs : List (String × α)) (p : String) :
    lookupA fs p = none ↔ ∀ e ∈ fs, e.1 ≠ p := by
  induction fs with
  | nil => simp [lookupA]
  | cons e r ih =>
    rw [lookupA]
    by_cases h1 : e.1 = p
    · simp [h1]
    · simp [h1, ih]

/-- Appending a nonempty string never returns the same string. -/
theorem append_ne_self (a b : String) (hb : b.data ≠ []) : a ++ b ≠ a := by
  intro h
  have hd : (a ++ b).data = a.data := congrArg String.data h
  rw [String.data_append] at hd
  have hl : a.data.length + b.data.length = a.data.length := by
    have := congrArg List.length hd
    simpa using this
  have : b.data.length = 0 := by omega
  exact hb (List.length_eq_zero.mp this)

/-- String concatenation is left-cancellative. -/
theorem append_left_cancel_s (a b c : String) (h : a ++ b = a ++ c) : b = c := by
  have hd : a.data ++ b.data = a.data ++ c.data := by
    have := congrArg String.data h
    rwa [String.data_append, String.data_append] at this
  have hbc : b.data = c.data := List.append_cancel_left hd
  exact String.ext hbc

/-- Every name produced by `readdirSync` names an entry of the state whose
key is that name joined under the directory. -/
theorem readdirSync_mem (fs : FS) (dir n : String) (h : n ∈ readdirSync fs dir) :
    ∃ e, e ∈ fs ∧ e.1 = dir ++ "/" ++ n := by
  rw [readdirSync, List.mem_filterMap] at h
  obtain ⟨e, he, heq⟩ := h
  refine ⟨e, he, ?_⟩
  by_cases hc : e.1 = dir ++ "/" ++ strDropN e.1 (lenS dir + 1) ∧
      strDropN e.1 (lenS dir + 1) ≠ "" ∧ (strDropN e.1 (lenS dir + 1)).data.contains '/' = false
  · rw [if_pos hc] at heq
    cases heq
    exact hc.1
  · rw [if_neg hc] at heq
    cases heq

/-- Names kept by the filter pass are exactly the enumerated names the
filter callback accepts. -/
theorem filterFilesM_mem (fs : FS) (names : List String) (n : String) :
    ∀ kept, filterFilesM fs names = .ok kept →
      (n ∈ kept ↔ n ∈ names ∧ listFilter fs n = .ok true) := by
  induction names with
  | nil =>
    intro kept h
    cases h
    simp
  | cons f rest ih =>
    intro kept h
    simp only [filterFilesM] at h
    cases hf : listFilter fs f with
    | error e =>
      simp only [hf] at h
      exact Except.noConfusion h
    | ok b =>
      simp only [hf] at h
      cases b with
      | false =>
        rw [ih kept h]
        constructor
        · rintro ⟨hm, ht⟩
          exact ⟨List.mem_cons_of_mem f hm, ht⟩
        · rintro ⟨hm, ht⟩
          rcases List.mem_cons.mp hm with h1 | h1
          · subst h1
            rw [hf] at ht
            cases ht
          · exact ⟨h1, ht⟩
      | true =>
        cases hrec : filterFilesM fs rest with
        | error e =>
          simp only [hrec] at h
          exact Except.noConfusion h
        | ok l =>
          simp only [hrec] at h
          cases h
          constructor
          · intro hm
            rcases List.mem_cons.mp hm with h1 | h1
            · subst h1
              exact ⟨List.mem_cons_self _ _, hf⟩
            · obtain ⟨hm2, ht⟩ := (ih l hrec).mp h1
              exact ⟨List.mem_cons_of_mem f hm2, ht⟩
          · rintro ⟨hm, ht⟩
            rcases List.mem_cons.mp hm with h1 | h1
            · subst h1
              exact List.mem_cons_self _ _
            · exact List.mem_cons_of_mem f ((ih l hrec).mpr ⟨h1, ht⟩)

/-- The map pass preserves the kept names, in order. -/
theorem mapFilesM_names (fs : FS) (kept : List String) :
    ∀ l, mapFilesM fs kept = .ok l → l.map FileInfo.name = kept := by
  induction kept with
  | nil =>
    intro l h
    cases h
    rfl
  | cons f rest ih =>
    intro l h
    simp only [mapFilesM] at h
    cases hm : mapFileEntry fs f with
    | error e =>
      simp only [hm] at h
      exact Except.noConfusion h
    | ok fi =>
      simp only [hm] at h
      cases hrec : mapFilesM fs rest with
      | error e =>
        simp only [hrec] at h
        exact Except.noConfusion h
      | ok l2 =>
        simp only [hrec] at h
        cases h
        have hname : fi.name = f := by
          simp only [mapFileEntry] at hm
          cases hs : statSync fs (pathJoin uploadsDir f) with
          | error e =>
            simp only [hs] at hm
            exact Except.noConfusion hm
          | ok st =>
            simp only [hs] at hm
            cases hm
            rfl
        simp [hname, ih l2 hrec]

/-- A successful scan yields a descriptor named `n` exactly when `n` was
enumerated and accepted by the filter callback. -/
theorem scanFiles_mem (fs : FS) (names : List String) (l : List FileInfo) (n : String)
    (h : scanFiles fs names = .ok l) :
    (∃ fi ∈ l, fi.name = n) ↔ n ∈ names ∧ listFilter fs n = .ok true := by
  simp only [scanFiles] at h
  cases heq : filterFilesM fs names with
  | error e =>
    simp only [heq] at h
    exact Except.noConfusion h
  | ok kept =>
    simp only [heq] at h
    have h1 := filterFilesM_mem fs names n kept heq
    have h2 := mapFilesM_names fs kept l h
    calc (∃ fi ∈ l, fi.name = n) ↔ n ∈ l.map FileInfo.name := by
          rw [List.mem_map]
      _ ↔ n ∈ kept := by rw [h2]
      _ ↔ n ∈ names ∧ listFilter fs n = .ok true := h1

/-- When the filter callback throws on an enumerated name, the whole
filter pass throws. -/
theorem filterFilesM_error (fs : FS) (names : List String) (n : String) (e : FsErr)
    (hmem : n ∈ names) (herr : listFilter fs n = .error e) :
    ∃ e2, filterFilesM fs names = .error e2 := by
  induction names with
  | nil => cases hmem
  | cons f rest ih =>
    rcases List.mem_cons.mp hmem with h1 | h1
    · subst h1
      exact ⟨e, by simp only [filterFilesM, herr]⟩
    · simp only [filterFilesM]
      cases hf : listFilter fs f with
      | error e3 => exact ⟨e3, rfl⟩
      | ok b =>
        obtain ⟨e2, h2⟩ := ih h1
        cases b with
        | false => exact ⟨e2, h2⟩
        | true => exact ⟨e2, by rw [h2]⟩

/-- A successful filter pass means the callback returned a value (did not
throw) on every enumerated name. -/
theorem filterFilesM_ok_of (fs : FS) (names : List String) (kept : List String) (n : String)
    (h : filterFilesM fs names = .ok kept) (hmem : n ∈ names) :
    ∃ b, listFilter fs n = .ok b := by
  cases hb : listFilter fs n with
  | ok b => exact ⟨b, rfl⟩
  | error e =>
    obtain ⟨e2, h2⟩ := filterFilesM_error fs names n e hmem hb
    rw [h] at h2
    cases h2

/-- A thrown filter error surfaces as a 500 listing response. -/
theorem listFilesFrom_error (fs : FS) (names : List String) (n : String) (e : FsErr)
    (hmem : n ∈ names) (herr : listFilter fs n = .error e) :
    ∃ m, listFilesFrom fs names = .serverError m := by
  obtain ⟨e2, h2⟩ := filterFilesM_error fs names n e hmem herr
  exact ⟨e2.message, by simp only [listFilesFrom, scanFiles, h2]⟩

/-- A successful scan contains a successful filter pass. -/
theorem scanFiles_filter_ok (fs : FS) (names : List String) (l : List FileInfo)
    (h : scanFiles fs names = .ok l) : ∃ kept, filterFilesM fs names = .ok kept := by
  cases heq : filterFilesM fs names with
  | error e =>
    simp only [scanFiles, heq] at h
    exact Except.noConfusion h
  | ok kept => exact ⟨kept, rfl⟩

/-- The filter callback hides any `.info` name without touching the
filesystem. -/
theorem listFilter_info (fs : FS) (nm : String) (h : endsWithS nm ".info" = true) :
    listFilter fs nm = .ok false := by
  simp only [listFilter, h]
  rfl

/-- On a `.json` name, the filter callback reduces to: hidden when the
suffix-stripped path currently holds a regular file, else keep exactly
when the entry itself stats as a regular file. -/
theorem listFilter_json_char (fs : FS) (nm : String)
    (hjson : endsWithS nm ".json" = true) (hinfo : endsWithS nm ".info" = false) :
    listFilter fs nm =
      (if baseIsFile fs (pathJoin uploadsDir (strDropLastN nm 5)) = true then .ok false
       else statIsFileE fs (pathJoin uploadsDir nm)) := by
  simp only [listFilter, hjson, hinfo]
  cases hb : lookupA fs (pathJoin uploadsDir (strDropLastN nm 5)) with
  | none =>
    simp [existsSync, baseIsFile, hb]
  | some st =>
    simp only [existsSync, baseIsFile, statSync, hb, Option.isSome_some, if_true]
    by_cases hf : st.isFile
    · simp [hf]
    · simp [hf]

/-- On a name with neither artifact suffix, the filter callback keeps the
entry exactly when it stats as a regular file. -/
theorem listFilter_plain (fs : FS) (nm : String)
    (hinfo : endsWithS nm ".info" = false) (hjson : endsWithS nm ".json" = false) :
    listFilter fs nm = statIsFileE fs (pathJoin uploadsDir nm) := by
  simp only [listFilter, hjson, hinfo]
  rfl

/-- Lookup in the accumulated metadata object realizes the
last-occurrence-wins rule: the front-most binding is the last decoded
occurrence, falling back to the accumulator. -/
theorem buildMap_lookup_filename (items : List String) :
    ∀ acc m, buildMap items acc = .ok m →
      lookupA m "filename" =
        (match lastFilename items with
         | some v => some v
         | none => lookupA acc "filename") := by
  induction items with
  | nil =>
    intro acc m h
    cases h
    rfl
  | cons item rest ih =>
    intro acc m h
    simp only [buildMap] at h
    cases hd : decodePair item with
    | error e =>
      simp only [hd] at h
      exact Except.noConfusion h
    | ok kv =>
      simp only [hd] at h
      have hthis := ih (kv :: acc) m h
      cases hlf : lastFilename rest with
      | some v =>
        simp only [hlf] at hthis
        simp only [lastFilename, hd, hlf]
        exact hthis
      | none =>
        simp only [hlf] at hthis
        simp only [lastFilename, hd, hlf]
        rw [hthis]
        simp only [lookupA]
        by_cases hk : kv.1 = "filename"
        · simp [hk]
        · simp [hk]

/-- When every metadata pair has a value part, the accumulation never
throws. -/
theorem buildMap_ok : ∀ (items : List String),
    (∀ item ∈ items, 2 ≤ (jsSplit spaceChar item).length) →
    ∀ acc, ∃ m, buildMap items acc = .ok m := by
  intro items
  induction items with
  | nil =>
    intro _ acc
    exact ⟨acc, rfl⟩
  | cons item rest ih =>
    intro hwf acc
    have h2 : 2 ≤ (jsSplit spaceChar item).length := hwf item (List.mem_cons_self _ _)
    cases hl : jsSplit spaceChar item with
    | nil =>
      rw [hl] at h2
      simp at h2
    | cons a t =>
      cases t with
      | nil =>
        rw [hl] at h2
        simp at h2
      | cons b t2 =>
        have hd : decodePair item = .ok (a, utf8Lenient (b64DecodeLenient b)) := by
          simp [decodePair, hl, bufferFromBase64]
        obtain ⟨m, hm⟩ := ih (fun it hit => hwf it (List.mem_cons_of_mem _ hit))
          ((a, utf8Lenient (b64DecodeLenient b)) :: acc)
        refine ⟨m, ?_⟩
        simp only [buildMap, hd]
        exact hm

/-- A cleanup step on a path that is absent or a regular file succeeds and
leaves exactly the state without that path. -/
theorem deleteAux_ok (fs : FS) (q : String) (h : auxFileOk fs q = true) :
    deleteAux fs q = .ok (removeA fs q) := by
  cases hq : lookupA fs q with
  | none =>
    rw [removeA_absent fs q hq]
    simp [deleteAux, existsSync, hq]
  | some st =>
    have hf : st.isFile = true := by
      simp only [auxFileOk, hq] at h
      exact h
    simp [deleteAux, existsSync, unlinkSync, hq, hf]

/-- A cleanup step on a path occupied by a directory throws `EISDIR`. -/
theorem deleteAux_err (fs : FS) (q : String) (st : Stats)
    (hq : lookupA fs q = some st) (hnf : st.isFile = false) :
    deleteAux fs q = .error (.eisdir q) := by
  simp [deleteAux, existsSync, unlinkSync, hq, hnf]

/-- C10: for requests on the upload path prefix, when the external engine
finishes without emitting response headers the gateway answers a generic
404 with body error `Not found`, and when handling throws before any
response was sent the gateway answers a generic 500 carrying the failure's
descriptive message. -/
theorem C10_gateway_fallbacks :
    (tusGateway (EngineOutcome.completed false) = GatewayResponse.notFound
      ∧ GatewayResponse.statusCode GatewayResponse.notFound = some 404
      ∧ GatewayResponse.bodyError GatewayResponse.notFound = some "Not found")
    ∧ ∀ msg, tusGateway (EngineOutcome.failed false msg) = GatewayResponse.internalError msg
      ∧ GatewayResponse.statusCode (GatewayResponse.internalError msg) = some 500
      ∧ GatewayResponse.bodyError (GatewayResponse.internalError msg) =
          some "Internal server error" :=
  ⟨⟨rfl, rfl, rfl⟩, fun _ => ⟨rfl, rfl, rfl⟩⟩

/-- C5: the route handlers apply no path-traversal confinement: the
parameter `..%2Fsecret` percent-decodes to `../secret`, resolves outside
the upload directory, and the download and delete handlers respectively
stream and delete that outside file. -/
theorem C5_path_traversal :
    percentDecode "..%2Fsecret" = some "../secret"
    ∧ pathJoin uploadsDir "../secret" = "/srv/store/secret"
    ∧ startsWithS (pathJoin uploadsDir "../secret") (uploadsDir ++ "/") = false
    ∧ downloadHandler outsideFile "..%2Fsecret" =
        DownloadResponse.stream "/srv/store/secret" "../secret"
    ∧ deleteHandler outsideFile "..%2Fsecret" = (DeleteResponse.ok, ([] : FS)) :=
  ⟨by decide, by decide, by decide, by decide, by decide⟩

/-- C9: the listing filter excludes every name ending in `.info`
unconditionally — the callback answers `false` with no further check on
any state — so no descriptor of a successful listing carries such a
name. -/
theorem C9_info_always_hidden (fs : FS) (nm : String)
    (h : endsWithS nm ".info" = true) :
    listFilter fs nm = .ok false
    ∧ ∀ names l, scanFiles fs names = .ok l → ∀ fi ∈ l, fi.name ≠ nm := by
  refine ⟨listFilter_info fs nm h, ?_⟩
  intro names l hscan fi hfi hname
  have hmem := (scanFiles_mem fs names l nm hscan).mp ⟨fi, hfi, hname⟩
  rw [listFilter_info fs nm h] at hmem
  simp at hmem

/-- Witness for C9 at a concrete name and state. -/
theorem C9_witness : listFilter ([] : FS) "upload.bin.info" = .ok false :=
  (C9_info_always_hidden [] "upload.bin.info" (by decide)).1

/-- C4 counterexample: the metadata header `filename`, a single pair with
no space-separated value part, makes the naming resolver throw (the
`TypeError` of `Buffer.from(undefined, "base64")`) instead of skipping
the pair. -/
theorem C4_counterexample : namingFunction (some "filename") 0 = .error () := by
  decide

/-- C4 (amended): when every comma-separated metadata pair has a
space-separated value part, the naming resolver never throws — in
particular a value that is not valid base64 is decoded leniently rather
than crashing — but a pair with no value part throws a `TypeError`. -/
theorem C4_resolver_no_crash_on_wellformed_pairs (md : String) (now : Nat)
    (hwf : ∀ item ∈ jsSplit ',' md, 2 ≤ (jsSplit spaceChar item).length) :
    ∃ name, namingFunction (some md) now = .ok name := by
  by_cases hmd : md = ""
  · exact ⟨"file-" ++ Nat.repr now, by simp [namingFunction, hmd]⟩
  · obtain ⟨m, hm⟩ := buildMap_ok (jsSplit ',' md) hwf []
    simp only [namingFunction, if_neg hmd, hm]
    cases hlk : lookupA m "filename" with
    | some v => exact ⟨_, rfl⟩
    | none => exact ⟨_, rfl⟩

/-- Witness for C4 at a header whose second pair carries invalid base64. -/
theorem C4_witness :
    ∃ name, namingFunction (some "filename dGVzdA==,other !!!") 5 = .ok name :=
  C4_resolver_no_crash_on_wellformed_pairs "filename dGVzdA==,other !!!" 5 (by decide)

/-- C7 counterexample: for the header `filename ` (key with empty encoded
value) the decoded mapping contains `filename` bound to the empty string,
yet the resolver returns the synthesized fallback, not that decoded value
verbatim: the empty string is falsy in `metadataObj.filename || ...`. -/
theorem C7_counterexample :
    lastFilename (jsSplit ',' "filename ") = some ""
    ∧ namingFunction (some "filename ") 7 = .ok "file-7"
    ∧ ("file-7" : String) ≠ "" :=
  ⟨by decide, by decide, by decide⟩

/-- C7 (amended): over headers whose pairs all carry a value part, if the
last successfully decoded `filename` value is nonempty the resolver
returns it verbatim (last occurrence of a repeated key wins); if no
`filename` key was decoded, or the header is absent, it returns the
synthesized `file-<currentEpochMillis>` name (the fallback is also used
for an empty decoded value, per the counterexample). -/
theorem C7_naming_selection (md : String) (now : Nat)
    (hmd : md ≠ "")
    (hwf : ∀ item ∈ jsSplit ',' md, 2 ≤ (jsSplit spaceChar item).length) :
    (∀ v, lastFilename (jsSplit ',' md) = some v → v ≠ "" →
      namingFunction (some md) now = .ok v)
    ∧ (lastFilename (jsSplit ',' md) = none →
      namingFunction (some md) now = .ok ("file-" ++ Nat.repr now))
    ∧ namingFunction none now = .ok ("file-" ++ Nat.repr now) := by
  obtain ⟨m, hm⟩ := buildMap_ok (jsSplit ',' md) hwf []
  have hlk := buildMap_lookup_filename (jsSplit ',' md) [] m hm
  refine ⟨?_, ?_, rfl⟩
  · intro v hv hne
    simp only [hv] at hlk
    simp only [namingFunction, if_neg hmd, hm, hlk, if_neg hne]
  · intro hv
    simp only [hv, lookupA] at hlk
    simp only [namingFunction, if_neg hmd, hm, hlk]

/-- Witness for C7 at the specification's own example header. -/
theorem C7_witness : namingFunction (some "filename dGVzdC50eHQ=") 0 = .ok "test.txt" :=
  (C7_naming_selection "filename dGVzdC50eHQ=" 0 (by decide) (by decide)).1
    "test.txt" (by decide) (by decide)

/-- C1 counterexample: deleting a name whose primary path exists but is a
directory answers 500 (the `EISDIR` of `unlinkSync`), not the 404 the
claim requires; the state is untouched. -/
theorem C1_counterexample :
    (deleteHandler fsDirOnly "adir").1 ≠ DeleteResponse.notFound
    ∧ DeleteResponse.statusCode (deleteHandler fsDirOnly "adir").1 = 500
    ∧ (deleteHandler fsDirOnly "adir").2 = fsDirOnly :=
  ⟨by decide, by decide, by decide⟩

/-- C1 (amended): when the primary path does not exist the delete route
answers 404 `File not found` and touches nothing; when the primary path
exists but is not a regular file it answers 500 with the `EISDIR`
message — not 404 — and likewise touches nothing. -/
theorem C1_delete_missing_or_nonfile (fs : FS) (param filename : String)
    (hdec : percentDecode param = some filename) :
    (lookupA fs (pathJoin uploadsDir filename) = none →
      deleteHandler fs param = (DeleteResponse.notFound, fs)
      ∧ DeleteResponse.statusCode DeleteResponse.notFound = 404)
    ∧ ∀ st, lookupA fs (pathJoin uploadsDir filename) = some st → st.isFile = false →
      deleteHandler fs param =
        (DeleteResponse.serverError
          (FsErr.message (FsErr.eisdir (pathJoin uploadsDir filename))), fs)
      ∧ DeleteResponse.statusCode (deleteHandler fs param).1 = 500 := by
  constructor
  · intro hnone
    refine ⟨?_, rfl⟩
    simp [deleteHandler, hdec, existsSync, hnone]
  · intro st hsome hnf
    have hdel : deleteHandler fs param =
        (DeleteResponse.serverError
          (FsErr.message (FsErr.eisdir (pathJoin uploadsDir filename))), fs) := by
      simp [deleteHandler, hdec, existsSync, hsome, unlinkSync, hnf]
    exact ⟨hdel, by rw [hdel]; rfl⟩

/-- Witness for C1 at the missing-primary branch. -/
theorem C1_witness :
    deleteHandler ([] : FS) "missing.txt" = (DeleteResponse.notFound, ([] : FS)) :=
  ((C1_delete_missing_or_nonfile ([] : FS) "missing.txt" "missing.txt" (by decide)).1
    (by decide)).1

/-- C2 counterexample: with the primary `f.bin` a regular file and the
companion path `f.bin.info` occupied by a directory, the delete answers
500 overall (no partial-success warning exists) even though the primary
was deleted. -/
theorem C2_counterexample :
    DeleteResponse.statusCode (deleteHandler fsLockedAux "f.bin").1 = 500
    ∧ (deleteHandler fsLockedAux "f.bin").1 ≠ DeleteResponse.ok
    ∧ lookupA (deleteHandler fsLockedAux "f.bin").2 "/srv/store/uploads/f.bin" = none :=
  ⟨by decide, by decide, by decide⟩

/-- C2 (amended): an unexpected failure while deleting either auxiliary
artifact - the `.info` companion, or the `.json` companion after a clean
`.info` step - fails the whole delete operation with 500 carrying the
thrown message; there is no distinguishable partial-success warning,
while the primary file stays deleted. -/
theorem C2_aux_failure_fails_delete (fs : FS) (param filename : String) (st : Stats)
    (hdec : percentDecode param = some filename)
    (hmain : lookupA fs (pathJoin uploadsDir filename) = some st)
    (hfile : st.isFile = true) :
    (∀ stInfo, lookupA fs (pathJoin uploadsDir filename ++ ".info") = some stInfo →
      stInfo.isFile = false →
      deleteHandler fs param =
        (DeleteResponse.serverError
          (FsErr.message (FsErr.eisdir (pathJoin uploadsDir filename ++ ".info"))),
         removeA fs (pathJoin uploadsDir filename))
      ∧ DeleteResponse.statusCode (deleteHandler fs param).1 = 500
      ∧ lookupA (deleteHandler fs param).2 (pathJoin uploadsDir filename) = none)
    ∧ (∀ stJson, auxFileOk fs (pathJoin uploadsDir filename ++ ".info") = true →
      lookupA fs (pathJoin uploadsDir filename ++ ".json") = some stJson →
      stJson.isFile = false →
      deleteHandler fs param =
        (DeleteResponse.serverError
          (FsErr.message (FsErr.eisdir (pathJoin uploadsDir filename ++ ".json"))),
         removeA (removeA fs (pathJoin uploadsDir filename))
           (pathJoin uploadsDir filename ++ ".info"))
      ∧ DeleteResponse.statusCode (deleteHandler fs param).1 = 500
      ∧ lookupA (deleteHandler fs param).2 (pathJoin uploadsDir filename) = none) := by
  have hne1 : pathJoin uploadsDir filename ++ ".info" ≠ pathJoin uploadsDir filename :=
    append_ne_self _ _ (by decide)
  have hne2 : pathJoin uploadsDir filename ++ ".json" ≠ pathJoin uploadsDir filename :=
    append_ne_self _ _ (by decide)
  have hne3 : pathJoin uploadsDir filename ++ ".json" ≠
      pathJoin uploadsDir filename ++ ".info" := by
    intro h
    exact absurd (append_left_cancel_s _ _ _ h) (by decide)
  have hunlink : unlinkSync fs (pathJoin uploadsDir filename) =
      .ok (removeA fs (pathJoin uploadsDir filename)) := by
    simp [unlinkSync, hmain, hfile]
  constructor
  · intro stInfo hinfo hinfodir
    have hlk1 : lookupA (removeA fs (pathJoin uploadsDir filename))
        (pathJoin uploadsDir filename ++ ".info") = some stInfo := by
      rw [lookupA_removeA, if_neg hne1, hinfo]
    have haux := deleteAux_err (removeA fs (pathJoin uploadsDir filename))
      (pathJoin uploadsDir filename ++ ".info") stInfo hlk1 hinfodir
    have hdel : deleteHandler fs param =
        (DeleteResponse.serverError
          (FsErr.message (FsErr.eisdir (pathJoin uploadsDir filename ++ ".info"))),
         removeA fs (pathJoin uploadsDir filename)) := by
      simp [deleteHandler, hdec, existsSync, hmain, hunlink, haux]
    refine ⟨hdel, by rw [hdel]; rfl, ?_⟩
    rw [hdel]
    simp [lookupA_removeA]
  · intro stJson hinfoOk hjson hjsondir
    have hok1 : auxFileOk (removeA fs (pathJoin uploadsDir filename))
        (pathJoin uploadsDir filename ++ ".info") = true := by
      simp only [auxFileOk]
      rw [lookupA_removeA, if_neg hne1]
      simp only [auxFileOk] at hinfoOk
      exact hinfoOk
    have haux1 := deleteAux_ok _ _ hok1
    have hlkj : lookupA (removeA (removeA fs (pathJoin uploadsDir filename))
        (pathJoin uploadsDir filename ++ ".info"))
        (pathJoin uploadsDir filename ++ ".json") = some stJson := by
      rw [lookupA_removeA, if_neg hne3, lookupA_removeA, if_neg hne2, hjson]
    have haux2 := deleteAux_err _ _ stJson hlkj hjsondir
    have hdel : deleteHandler fs param =
        (DeleteResponse.serverError
          (FsErr.message (FsErr.eisdir (pathJoin uploadsDir filename ++ ".json"))),
         removeA (removeA fs (pathJoin uploadsDir filename))
           (pathJoin uploadsDir filename ++ ".info")) := by
      simp [deleteHandler, hdec, existsSync, hmain, hunlink, haux1, haux2]
    refine ⟨hdel, by rw [hdel]; rfl, ?_⟩
    rw [hdel]
    show lookupA (removeA (removeA fs (pathJoin uploadsDir filename))
      (pathJoin uploadsDir filename ++ ".info")) (pathJoin uploadsDir filename) = none
    rw [lookupA_removeA, if_neg (fun h => hne1 h.symm), lookupA_removeA, if_pos rfl]

/-- Witness for C2 at concrete locked-companion states, exercising both
the `.info` and the `.json` failure branches. -/
theorem C2_witness :
    deleteHandler fsLockedAux "f.bin" =
      (DeleteResponse.serverError
        (FsErr.message (FsErr.eisdir "/srv/store/uploads/f.bin.info")),
       [("/srv/store/uploads/f.bin.info", (⟨false, 0, 0⟩ : Stats))])
    ∧ deleteHandler fsLockedJson "g.bin" =
      (DeleteResponse.serverError
        (FsErr.message (FsErr.eisdir "/srv/store/uploads/g.bin.json")),
       [("/srv/store/uploads/g.bin.json", (⟨false, 0, 0⟩ : Stats))]) := by
  constructor
  · have h := C2_aux_failure_fails_delete fsLockedAux "f.bin" "f.bin" ⟨true, 4, 0⟩
      (by decide) (by decide) (by decide)
    exact ((h.1 ⟨false, 0, 0⟩ (by decide) (by decide)).1).trans (by decide)
  · have h := C2_aux_failure_fails_delete fsLockedJson "g.bin" "g.bin" ⟨true, 4, 0⟩
      (by decide) (by decide) (by decide)
    exact ((h.2 ⟨false, 0, 0⟩ (by decide) (by decide) (by decide)).1).trans (by decide)

/-- C3 counterexample: with snapshot `[a.txt]` enumerated but the entry
already gone from the state seen by `statSync`, the listing answers 500
with the `ENOENT` message — it does not omit the entry and succeed. -/
theorem C3_counterexample :
    listFilesFrom ([] : FS) ["a.txt"] =
      ListResponse.serverError (FsErr.message (FsErr.enoent "/srv/store/uploads/a.txt"))
    ∧ listFilesFrom ([] : FS) ["a.txt"] ≠ ListResponse.ok [] :=
  ⟨by decide, by decide⟩

/-- C3 (amended): when an enumerated entry (not `.info`-suffixed, and not a
`.json` entry whose primary counterpart is currently a regular file, which
are excluded without a stat) has disappeared from the state by the time it
is statted, the whole listing fails with a 500 response; the entry is
never silently omitted. -/
theorem C3_vanished_entry_fails_listing (fs : FS) (names : List String) (nm : String)
    (hmem : nm ∈ names)
    (hinfo : endsWithS nm ".info" = false)
    (hjson : endsWithS nm ".json" = true →
      baseIsFile fs (pathJoin uploadsDir (strDropLastN nm 5)) = false)
    (hgone : lookupA fs (pathJoin uploadsDir nm) = none) :
    ∃ m, listFilesFrom fs names = ListResponse.serverError m := by
  have hstat : statIsFileE fs (pathJoin uploadsDir nm) =
      .error (.enoent (pathJoin uploadsDir nm)) := by
    simp [statIsFileE, statSync, hgone]
  have herr : listFilter fs nm = .error (.enoent (pathJoin uploadsDir nm)) := by
    by_cases hj : endsWithS nm ".json" = true
    · have hbf := hjson hj
      rw [listFilter_json_char fs nm hj hinfo, if_neg (by rw [hbf]; exact Bool.false_ne_true),
        hstat]
    · have hj2 : endsWithS nm ".json" = false := by
        cases hb : endsWithS nm ".json" with
        | true => exact absurd hb hj
        | false => rfl
      rw [listFilter_plain fs nm hinfo hj2, hstat]
  exact listFilesFrom_error fs names nm _ hmem herr

/-- Witness for C3 at a concrete snapshot racing a concrete state. -/
theorem C3_witness :
    ∃ m, listFilesFrom [("/srv/store/uploads/c.txt", (⟨true, 1, 1⟩ : Stats))] ["b.dat"] =
      ListResponse.serverError m :=
  C3_vanished_entry_fails_listing _ ["b.dat"] "b.dat"
    (by decide) (by decide) (by decide) (by decide)

/-- C6 counterexample: an entry named `d.json` that is itself a
sub-directory, with no primary `d` present, is enumerated yet absent from
the listing — the claim would have it appear as a logical file. -/
theorem C6_counterexample :
    readdirSync fsOrphanJson uploadsDir = ["d.json"]
    ∧ endsWithS "d.json" ".json" = true
    ∧ baseIsFile fsOrphanJson (pathJoin uploadsDir "d") = false
    ∧ getFilesHandler fsOrphanJson = ListResponse.ok [] :=
  ⟨by decide, by decide, by decide, by decide⟩

/-- C6 (amended): a `.json`-suffixed enumerated entry is hidden as a
sidecar artifact exactly when the suffix-stripped path currently holds a
regular file; otherwise it appears in the listing exactly when the entry
itself is currently a regular file.  The classification is a pure function
of the current state, recomputed per call. -/
theorem C6_sidecar_classification (fs : FS) (names : List String) (nm : String)
    (l : List FileInfo)
    (hjson : endsWithS nm ".json" = true)
    (hinfo : endsWithS nm ".info" = false)
    (hmem : nm ∈ names)
    (hscan : scanFiles fs names = .ok l) :
    (∃ fi ∈ l, fi.name = nm) ↔
      (baseIsFile fs (pathJoin uploadsDir (strDropLastN nm 5)) = false
       ∧ baseIsFile fs (pathJoin uploadsDir nm) = true) := by
  rw [scanFiles_mem fs names l nm hscan]
  constructor
  · rintro ⟨_, hflt⟩
    by_cases hbf : baseIsFile fs (pathJoin uploadsDir (strDropLastN nm 5)) = true
    · rw [listFilter_json_char fs nm hjson hinfo, if_pos hbf] at hflt
      simp at hflt
    · have hbf2 : baseIsFile fs (pathJoin uploadsDir (strDropLastN nm 5)) = false := by
        cases hb : baseIsFile fs (pathJoin uploadsDir (strDropLastN nm 5)) with
        | true => exact absurd hb hbf
        | false => rfl
      refine ⟨hbf2, ?_⟩
      rw [listFilter_json_char fs nm hjson hinfo, if_neg hbf] at hflt
      cases hp : lookupA fs (pathJoin uploadsDir nm) with
      | none =>
        rw [statIsFileE, statSync, hp] at hflt
        exact Except.noConfusion hflt
      | some st =>
        rw [statIsFileE, statSync, hp] at hflt
        have hst : st.isFile = true := Except.ok.inj hflt
        simp [baseIsFile, hp, hst]
  · rintro ⟨hbf, hent⟩
    refine ⟨hmem, ?_⟩
    rw [listFilter_json_char fs nm hjson hinfo,
      if_neg (by rw [hbf]; exact Bool.false_ne_true)]
    cases hp : lookupA fs (pathJoin uploadsDir nm) with
    | none =>
      rw [baseIsFile, hp] at hent
      exact absurd hent Bool.false_ne_true
    | some st =>
      have hst : st.isFile = true := by
        rw [baseIsFile, hp] at hent
        exact hent
      simp [statIsFileE, statSync, hp, hst]

/-- Witness for C6: a regular file literally named `report.json` with no
primary counterpart appears in the listing. -/
theorem C6_witness :
    ∃ fi ∈ [(⟨"report.json", 3, 2, "/api/files/report.json"⟩ : FileInfo)],
      fi.name = "report.json" := by
  have h := C6_sidecar_classification fsReportJson ["report.json"] "report.json"
    [⟨"report.json", 3, 2, "/api/files/report.json"⟩]
    (by decide) (by decide) (by decide) (by decide)
  exact h.mpr ⟨by decide, by decide⟩

/-- C8: deleting a logical filename whose primary path holds a regular
file removes the primary and then each present auxiliary artifact
(`<name>.info`, `<name>.json`), treating absence of either as non-error;
afterwards the name is absent from any successful listing and a repeated
delete of the same name answers 404. -/
theorem C8_delete_lifecycle (fs : FS) (param filename : String) (st : Stats)
    (hdec : percentDecode param = some filename)
    (hplain : pathJoin uploadsDir filename = uploadsDir ++ "/" ++ filename)
    (hmain : lookupA fs (pathJoin uploadsDir filename) = some st)
    (hfile : st.isFile = true)
    (hinfo : auxFileOk fs (pathJoin uploadsDir filename ++ ".info") = true)
    (hjson : auxFileOk fs (pathJoin uploadsDir filename ++ ".json") = true) :
    deleteHandler fs param =
      (DeleteResponse.ok,
        removeA (removeA (removeA fs (pathJoin uploadsDir filename))
          (pathJoin uploadsDir filename ++ ".info"))
          (pathJoin uploadsDir filename ++ ".json"))
    ∧ lookupA (deleteHandler fs param).2 (pathJoin uploadsDir filename) = none
    ∧ lookupA (deleteHandler fs param).2 (pathJoin uploadsDir filename ++ ".info") = none
    ∧ lookupA (deleteHandler fs param).2 (pathJoin uploadsDir filename ++ ".json") = none
    ∧ (∀ l fi, getFilesHandler (deleteHandler fs param).2 = ListResponse.ok l →
        fi ∈ l → fi.name ≠ filename)
    ∧ deleteHandler (deleteHandler fs param).2 param =
        (DeleteResponse.notFound, (deleteHandler fs param).2) := by
  have hne1 : pathJoin uploadsDir filename ++ ".info" ≠ pathJoin uploadsDir filename :=
    append_ne_self _ _ (by decide)
  have hne2 : pathJoin uploadsDir filename ++ ".json" ≠ pathJoin uploadsDir filename :=
    append_ne_self _ _ (by decide)
  have hne3 : pathJoin uploadsDir filename ++ ".json" ≠
      pathJoin uploadsDir filename ++ ".info" := by
    intro h
    exact absurd (append_left_cancel_s _ _ _ h) (by decide)
  have hunlink : unlinkSync fs (pathJoin uploadsDir filename) =
      .ok (removeA fs (pathJoin uploadsDir filename)) := by
    simp [unlinkSync, hmain, hfile]
  have hok1 : auxFileOk (removeA fs (pathJoin uploadsDir filename))
      (pathJoin uploadsDir filename ++ ".info") = true := by
    simp only [auxFileOk]
    rw [lookupA_removeA, if_neg hne1]
    simp only [auxFileOk] at hinfo
    exact hinfo
  have haux1 := deleteAux_ok _ _ hok1
  have hok2 : auxFileOk (removeA (removeA fs (pathJoin uploadsDir filename))
        (pathJoin uploadsDir filename ++ ".info"))
      (pathJoin uploadsDir filename ++ ".json") = true := by
    simp only [auxFileOk]
    rw [lookupA_removeA, if_neg hne3, lookupA_removeA, if_neg hne2]
    simp only [auxFileOk] at hjson
    exact hjson
  have haux2 := deleteAux_ok _ _ hok2
  have hdel : deleteHandler fs param =
      (DeleteResponse.ok,
        removeA (removeA (removeA fs (pathJoin uploadsDir filename))
          (pathJoin uploadsDir filename ++ ".info"))
          (pathJoin uploadsDir filename ++ ".json")) := by
    simp [deleteHandler, hdec, existsSync, hmain, hunlink, haux1, haux2]
  have hl_p : lookupA (removeA (removeA (removeA fs (pathJoin uploadsDir filename))
      (pathJoin uploadsDir filename ++ ".info"))
      (pathJoin uploadsDir filename ++ ".json")) (pathJoin uploadsDir filename) = none := by
    rw [lookupA_removeA, if_neg (fun h => hne2 h.symm),
      lookupA_removeA, if_neg (fun h => hne1 h.symm),
      lookupA_removeA, if_pos rfl]
  have hl_pi : lookupA (removeA (removeA (removeA fs (pathJoin uploadsDir filename))
      (pathJoin uploadsDir filename ++ ".info"))
      (pathJoin uploadsDir filename ++ ".json"))
      (pathJoin uploadsDir filename ++ ".info") = none := by
    rw [lookupA_removeA, if_neg (fun h => hne3 h.symm),
      lookupA_removeA, if_pos rfl]
  have hl_pj : lookupA (removeA (removeA (removeA fs (pathJoin uploadsDir filename))
      (pathJoin uploadsDir filename ++ ".info"))
      (pathJoin uploadsDir filename ++ ".json"))
      (pathJoin uploadsDir filename ++ ".json") = none := by
    rw [lookupA_removeA, if_pos rfl]
  refine ⟨hdel, ?_, ?_, ?_, ?_, ?_⟩
  · rw [hdel]
    exact hl_p
  · rw [hdel]
    exact hl_pi
  · rw [hdel]
    exact hl_pj
  · rw [hdel]
    intro l fi hlist hfi hname
    have hscan : scanFiles (removeA (removeA (removeA fs (pathJoin uploadsDir filename))
        (pathJoin uploadsDir filename ++ ".info"))
        (pathJoin uploadsDir filename ++ ".json"))
        (readdirSync (removeA (removeA (removeA fs (pathJoin uploadsDir filename))
          (pathJoin uploadsDir filename ++ ".info"))
          (pathJoin uploadsDir filename ++ ".json")) uploadsDir) = .ok l := by
      simp only [getFilesHandler, listFilesFrom] at hlist
      cases hs : scanFiles (removeA (removeA (removeA fs (pathJoin uploadsDir filename))
          (pathJoin uploadsDir filename ++ ".info"))
          (pathJoin uploadsDir filename ++ ".json"))
          (readdirSync (removeA (removeA (removeA fs (pathJoin uploadsDir filename))
            (pathJoin uploadsDir filename ++ ".info"))
            (pathJoin uploadsDir filename ++ ".json")) uploadsDir) with
      | ok l2 =>
        simp only [hs] at hlist
        cases hlist
        rfl
      | error e =>
        simp only [hs] at hlist
        exact ListResponse.noConfusion hlist
    have hmem2 := (scanFiles_mem _ _ l filename hscan).mp ⟨fi, hfi, hname⟩
    obtain ⟨e, he, hkey⟩ := readdirSync_mem _ uploadsDir filename hmem2.1
    rw [← hplain] at hkey
    exact absurd hkey ((lookupA_eq_none_iff _ _).mp hl_p e he)
  · rw [hdel]
    simp [deleteHandler, hdec, existsSync, hl_p]

/-- Witness for C8 at a finished upload with both auxiliary artifacts. -/
theorem C8_witness : deleteHandler fsVideo "video.mp4" = (DeleteResponse.ok, ([] : FS)) := by
  have h := C8_delete_lifecycle fsVideo "video.mp4" "video.mp4" ⟨true, 100, 1⟩
    (by decide) (by decide) (by decide) (by decide) (by decide) (by decide)
  exact h.1.trans (by decide)
